import Mathlib

/-!
Verification of the document-history and content-aware-bounds core of the
fabricjs-label-editor repository.

The embedding covers:
* `ActionStack` and `UndoRedoStack` from `src/lib/undo-redo-stack.ts`,
  modelled functionally: the JS array `state` is a `List` in insertion order
  (index 0 first pushed; the stack top is the last element, as JS
  `Array.push`/`Array.pop`/`Array.at(-1)` act on the end).
* the `scanPixels` bounding-box scan inside `getRealBBox` and the
  `alignObject` position formulas from `src/lib/utils.ts`.
* a store-based model of `ActionStack.getValues` for the aliasing claim
  (JS arrays are heap references; `[...this.state]` allocates a fresh one).
-/

namespace LabelEditor

/-- ActionStack from `src/lib/undo-redo-stack.ts`: a wrapper around a JS array
`state`. The list holds the elements in insertion order, so the stack top is
the last element. -/
structure ActionStack (α : Type) where
  state : List α
deriving DecidableEq

namespace ActionStack

/-- JS `push(val) { this.state.push(val); }`: append at the end. -/
def push (s : ActionStack α) (v : α) : ActionStack α := ⟨s.state ++ [v]⟩

/-- JS `pop() { return this.state.pop(); }`: remove and return the last
element; `undefined` (`none`) on an empty array, which is left unchanged. -/
def pop (s : ActionStack α) : Option α × ActionStack α :=
  (s.state.getLast?, ⟨s.state.dropLast⟩)

/-- JS `isEmpty() { return this.state.length < 1; }`. -/
def isEmpty (s : ActionStack α) : Bool := decide (s.state.length < 1)

/-- JS `clear() { this.state.splice(0); }`: remove all elements. -/
def clear (_ : ActionStack α) : ActionStack α := ⟨[]⟩

/-- JS `current() { return this.state.at(-1); }`: the last element, or
`undefined` (`none`) when the array is empty. -/
def current (s : ActionStack α) : Option α := s.state.getLast?

/-- JS `get length() { return this.state.length; }`. -/
def length (s : ActionStack α) : Nat := s.state.length

end ActionStack

/-- UndoRedoStack from `src/lib/undo-redo-stack.ts`: two `ActionStack`s. -/
structure UndoRedoStack (α : Type) where
  undoStack : ActionStack α
  redoStack : ActionStack α
deriving DecidableEq

namespace UndoRedoStack

/-- The default-constructed `UndoRedoStack` (both stacks empty). -/
def new : UndoRedoStack α := ⟨⟨[]⟩, ⟨[]⟩⟩

/-- JS `push(val)`: push onto `undoStack`, clear `redoStack`. -/
def push (s : UndoRedoStack α) (v : α) : UndoRedoStack α :=
  ⟨s.undoStack.push v, s.redoStack.clear⟩

/-- JS `undo()`: when `undoStack.length > 1`, pop `undoStack`, push the popped
value onto `redoStack`, and return the new `undoStack.current()`; otherwise
return `undefined` (`none`) and change nothing. The `none` branch of the inner
match is unreachable because the length guard makes the pop succeed. -/
def undo (s : UndoRedoStack α) : Option α × UndoRedoStack α :=
  if 1 < s.undoStack.length then
    match s.undoStack.pop with
    | (some op, u) => (u.current, ⟨u, s.redoStack.push op⟩)
    | (none, _) => (none, s)
  else (none, s)

/-- JS `redo()`: when `redoStack` is non-empty, pop it, push the popped value
onto `undoStack`, and return the popped value; otherwise return `undefined`
(`none`) and change nothing. The `none` branch of the inner match is
unreachable because of the emptiness guard. -/
def redo (s : UndoRedoStack α) : Option α × UndoRedoStack α :=
  if !s.redoStack.isEmpty then
    match s.redoStack.pop with
    | (some op, r) => (some op, ⟨s.undoStack.push op, r⟩)
    | (none, _) => (none, s)
  else (none, s)

/-- JS `clear()`: empty both stacks. -/
def clear (_ : UndoRedoStack α) : UndoRedoStack α := ⟨⟨[]⟩, ⟨[]⟩⟩

/-- JS `latest() { return this.undoStack.current(); }`. -/
def latest (s : UndoRedoStack α) : Option α := s.undoStack.current

/-- Push a whole list of snapshots in order. -/
def pushAll (s : UndoRedoStack α) (l : List α) : UndoRedoStack α :=
  l.foldl push s

/-- Apply `undo()` a given number of times, keeping only the state. -/
def undoN : UndoRedoStack α → Nat → UndoRedoStack α
  | s, 0 => s
  | s, n + 1 => undoN (s.undo).2 n

/-- Apply `redo()` a given number of times, keeping only the state. -/
def redoN : UndoRedoStack α → Nat → UndoRedoStack α
  | s, 0 => s
  | s, n + 1 => redoN (s.redo).2 n

end UndoRedoStack

/-- A decoded raster consumed by `scanPixels` in `src/lib/utils.ts`: `w × h`
pixels, row-major, each pixel a 32-bit value with alpha in the most
significant byte (the `Uint32Array` view `data` of the image data, indexed as
`data[y * w + x]`). -/
structure PixelBuffer where
  w : Nat
  h : Nat
  data : List Nat
deriving DecidableEq

/-- The opacity test `data[y * w + x] & 0xff000000` from `scanPixels`,
truthy exactly when the most significant byte is non-zero. -/
def alphaAt (P : PixelBuffer) (y x : Nat) : Bool :=
  (P.data.getD (y * P.w + x) 0).land 0xff000000 != 0

/-- The inner column loop of the `y1`/`y2` sweeps of `scanPixels`: a row
breaks the loop exactly when some column in it passes the opacity test. -/
def rowHasAlpha (P : PixelBuffer) (y : Nat) : Bool :=
  (List.range P.w).any (fun x => alphaAt P y x)

/-- The `y1` sweep of `scanPixels`: rows are scanned top to bottom and the
first row containing an opaque pixel is taken; `y1 ??= h - 1` supplies the
default when no row qualifies. -/
def scanY1 (P : PixelBuffer) : Nat :=
  ((List.range P.h).find? (fun y => rowHasAlpha P y)).getD (P.h - 1)

/-- The `y2` sweep of `scanPixels`: rows are scanned from `h - 1` down to
`y1 + 1` (the loop runs while `y > y1`) and the first row containing an
opaque pixel is taken; `y2 ??= y1 + 1` supplies the default. -/
def scanY2 (P : PixelBuffer) (y1 : Nat) : Nat :=
  (((List.range' (y1 + 1) (P.h - 1 - y1)).reverse).find?
    (fun y => rowHasAlpha P y)).getD (y1 + 1)

/-- One row of the `x1` sweep of `scanPixels`: columns are scanned left to
right and the first column `x` with `x < x1` and an opaque pixel replaces
`x1`, breaking the inner loop; otherwise `x1` is unchanged. -/
def scanX1Row (P : PixelBuffer) (x1 y : Nat) : Nat :=
  ((List.range P.w).find? (fun x => decide (x < x1) && alphaAt P y x)).getD x1

/-- The `x1` sweep of `scanPixels`: rows `y1 ≤ y < y2`, seeded at `w`. -/
def scanX1 (P : PixelBuffer) (y1 y2 : Nat) : Nat :=
  (List.range' y1 (y2 - y1)).foldl (scanX1Row P) P.w

/-- One row of the `x2` sweep of `scanPixels`: columns are scanned from
`w - 1` down to `x1 + 1` (the loop runs while `x > x1`) and the first column
`x` with `x > x2` and an opaque pixel replaces `x2`, breaking the inner
loop; otherwise `x2` is unchanged. -/
def scanX2Row (P : PixelBuffer) (x1 x2 y : Nat) : Nat :=
  (((List.range' (x1 + 1) (P.w - 1 - x1)).reverse).find?
    (fun x => decide (x2 < x) && alphaAt P y x)).getD x2

/-- The `x2` sweep of `scanPixels`: rows `y1 ≤ y < y2`, seeded at `0`. -/
def scanX2 (P : PixelBuffer) (x1 y1 y2 : Nat) : Nat :=
  (List.range' y1 (y2 - y1)).foldl (scanX2Row P x1) 0

/-- The record returned by `scanPixels`. The width and height are integers
because they are computed as differences that the code does not clamp. -/
structure OpaqueBounds where
  x1 : Nat
  x2 : Nat
  y1 : Nat
  y2 : Nat
  width : Int
  height : Int
deriving DecidableEq

/-- The full `scanPixels` function from `getRealBBox` in `src/lib/utils.ts`:
the four sweeps in program order, then the result record with
`width: x2 - x1` and `height: y2 - y1`. -/
def scanPixels (P : PixelBuffer) : OpaqueBounds :=
  let y1 := scanY1 P
  let y2 := scanY2 P y1
  let x1 := scanX1 P y1 y2
  let x2 := scanX2 P x1 y1 y2
  { x1 := x1, x2 := x2, y1 := y1, y2 := y2,
    width := (x2 : Int) - (x1 : Int), height := (y2 : Int) - (y1 : Int) }

/-- A pixel of the buffer at row `y`, column `x` is in range and passes the
opacity test of `scanPixels`. -/
def pixelIsOpaque (P : PixelBuffer) (y x : Nat) : Prop :=
  y < P.h ∧ x < P.w ∧ alphaAt P y x = true

instance (P : PixelBuffer) (y x : Nat) : Decidable (pixelIsOpaque P y x) := by
  unfold pixelIsOpaque
  infer_instance

/-- The new `left` coordinate computed by `alignObject` in
`src/lib/utils.ts` for the horizontal positions of its `switch (pos)`:
`left` sets `currentLeft - bound.left - realBound.x1`, `center-h` adds
`canvas.width / 2 - realBound.width / 2` to that, `right` adds
`canvas.width - realBound.width`; every other position leaves `left`
untouched (`none`). Coordinates are rationals (the JS arithmetic on these
quantities: subtraction, addition and halving). -/
def alignObjectLeft (pos : String) (currentLeft boundLeft realX1 realWidth
    canvasWidth : Rat) : Option Rat :=
  match pos with
  | "left" => some (currentLeft - boundLeft - realX1)
  | "center-h" =>
      some (currentLeft - boundLeft - realX1 + canvasWidth / 2 - realWidth / 2)
  | "right" => some (currentLeft - boundLeft - realX1 + canvasWidth - realWidth)
  | _ => none

/-- A heap of JS arrays, modelling the aliasing structure of
`ActionStack.state`: each index of `arrays` is one JS array object, and an
`ActionStack` holds a reference (an index) to its `state` array. -/
structure Store (α : Type) where
  arrays : List (List α)
deriving DecidableEq

namespace Store

/-- Dereference an array. -/
def read (st : Store α) (r : Nat) : List α := st.arrays.getD r []

/-- Mutate the array behind a reference in place (a JS array mutation seen by
every holder of the reference). -/
def write (st : Store α) (r : Nat) (v : List α) : Store α := ⟨st.arrays.set r v⟩

/-- JS `getValues() { return [...this.state]; }` for the stack whose `state`
reference is `r`: allocate a fresh array holding a copy of the referenced
array's elements and return the fresh reference. -/
def getValues (st : Store α) (r : Nat) : Store α × Nat :=
  (⟨st.arrays ++ [st.read r]⟩, st.arrays.length)

/-- JS `pop()` for the stack whose `state` reference is `r`: the result and
the updated store. -/
def pop (st : Store α) (r : Nat) : Option α × Store α :=
  ((st.read r).getLast?, st.write r (st.read r).dropLast)

/-- JS `current()` for the stack whose `state` reference is `r`. -/
def current (st : Store α) (r : Nat) : Option α := (st.read r).getLast?

end Store

end LabelEditor

namespace LabelEditor

open UndoRedoStack

/-- Characterization of an effective undo: with more than one undo entry, the
last entry moves to the redo stack and the new last undo entry is returned. -/
theorem undo_of_one_lt {α : Type} (a b : List α) (ha : a ≠ []) (h : 1 < a.length) :
    undo ⟨⟨a⟩, ⟨b⟩⟩ =
      (a.dropLast.getLast?, ⟨⟨a.dropLast⟩, ⟨b ++ [a.getLast ha]⟩⟩) := by
  simp only [undo, ActionStack.length, ActionStack.pop, ActionStack.current,
    ActionStack.push, List.getLast?_eq_getLast_of_ne_nil ha, if_pos h]

/-- Characterization of a no-op undo: at most one undo entry means nothing
changes and the no-op sentinel is returned. -/
theorem undo_of_le_one {α : Type} (a b : List α) (h : a.length ≤ 1) :
    undo ⟨⟨a⟩, ⟨b⟩⟩ = (none, ⟨⟨a⟩, ⟨b⟩⟩) := by
  have h1 : ¬ 1 < a.length := by omega
  simp only [undo, ActionStack.length, if_neg h1]

/-- Characterization of an effective redo: with a non-empty redo stack, its
last entry moves back to the undo stack and is returned. -/
theorem redo_of_ne_nil {α : Type} (a b : List α) (hb : b ≠ []) :
    redo ⟨⟨a⟩, ⟨b⟩⟩ =
      (some (b.getLast hb), ⟨⟨a ++ [b.getLast hb]⟩, ⟨b.dropLast⟩⟩) := by
  have h1 : ¬ b.length < 1 := by
    have := List.length_pos.mpr hb
    omega
  simp [redo, ActionStack.isEmpty, ActionStack.pop, ActionStack.push,
    List.getLast?_eq_getLast_of_ne_nil hb, h1]

/-- Pushing a non-empty list of snapshots appends them all to the undo stack
and leaves the redo stack empty. -/
theorem pushAll_eq {α : Type} :
    ∀ (l a b : List α), l ≠ [] →
      pushAll ⟨⟨a⟩, ⟨b⟩⟩ l = ⟨⟨a ++ l⟩, ⟨[]⟩⟩
  | [v], a, b, _ => by simp [pushAll, push, ActionStack.push, ActionStack.clear]
  | v :: w :: t, a, b, _ => by
    have hstep : pushAll (⟨⟨a⟩, ⟨b⟩⟩ : UndoRedoStack α) (v :: w :: t) =
        pushAll ⟨⟨a ++ [v]⟩, ⟨[]⟩⟩ (w :: t) := rfl
    rw [hstep, pushAll_eq (w :: t) (a ++ [v]) [] (by simp)]
    simp

/-- Closed form for a run of undos: with `k` smaller than the undo-stack
length, `k` undos move the last `k` undo entries onto the redo stack in
reverse order. -/
theorem undoN_spec {α : Type} :
    ∀ (k : Nat) (a b : List α), k < a.length →
      undoN ⟨⟨a⟩, ⟨b⟩⟩ k =
        ⟨⟨a.take (a.length - k)⟩, ⟨b ++ (a.drop (a.length - k)).reverse⟩⟩
  | 0, a, b, _ => by simp [undoN]
  | k + 1, a, b, h => by
    have ha : a ≠ [] := by
      intro e
      subst e
      simp at h
    have h1 : 1 < a.length := by omega
    have hk : k < a.dropLast.length := by
      rw [List.length_dropLast]
      omega
    have hidx : a.dropLast.length - k = a.length - (k + 1) := by
      rw [List.length_dropLast]
      omega
    have e1 : a.dropLast.take (a.length - (k + 1)) = a.take (a.length - (k + 1)) := by
      rw [List.dropLast_eq_take, List.take_take]
      congr 1
      omega
    have key : a.drop (a.length - (k + 1)) =
        a.dropLast.drop (a.length - (k + 1)) ++ [a.getLast ha] := by
      have h2 : a.length - (k + 1) ≤ a.dropLast.length := by
        rw [List.length_dropLast]
        omega
      calc a.drop (a.length - (k + 1))
          = (a.dropLast ++ [a.getLast ha]).drop (a.length - (k + 1)) := by
            rw [List.dropLast_append_getLast ha]
        _ = a.dropLast.drop (a.length - (k + 1)) ++ [a.getLast ha] :=
            List.drop_append_of_le_length h2
    have ih := undoN_spec k a.dropLast (b ++ [a.getLast ha]) hk
    calc undoN (⟨⟨a⟩, ⟨b⟩⟩ : UndoRedoStack α) (k + 1)
        = undoN ⟨⟨a.dropLast⟩, ⟨b ++ [a.getLast ha]⟩⟩ k := by
          show undoN (undo ⟨⟨a⟩, ⟨b⟩⟩).2 k = _
          rw [undo_of_one_lt a b ha h1]
      _ = _ := by
          rw [ih, hidx, e1, key, List.reverse_append]
          simp [List.append_assoc]

/-- Closed form for a run of redos: with `k` at most the redo-stack length,
`k` redos move the last `k` redo entries back onto the undo stack in reverse
order. -/
theorem redoN_spec {α : Type} :
    ∀ (k : Nat) (a b : List α), k ≤ b.length →
      redoN ⟨⟨a⟩, ⟨b⟩⟩ k =
        ⟨⟨a ++ (b.drop (b.length - k)).reverse⟩, ⟨b.take (b.length - k)⟩⟩
  | 0, a, b, _ => by simp [redoN]
  | k + 1, a, b, h => by
    have hb : b ≠ [] := by
      intro e
      subst e
      simp at h
    have hk : k ≤ b.dropLast.length := by
      rw [List.length_dropLast]
      omega
    have hidx : b.dropLast.length - k = b.length - (k + 1) := by
      rw [List.length_dropLast]
      omega
    have e1 : b.dropLast.take (b.length - (k + 1)) = b.take (b.length - (k + 1)) := by
      rw [List.dropLast_eq_take, List.take_take]
      congr 1
      omega
    have key : b.drop (b.length - (k + 1)) =
        b.dropLast.drop (b.length - (k + 1)) ++ [b.getLast hb] := by
      have h2 : b.length - (k + 1) ≤ b.dropLast.length := by
        rw [List.length_dropLast]
        omega
      calc b.drop (b.length - (k + 1))
          = (b.dropLast ++ [b.getLast hb]).drop (b.length - (k + 1)) := by
            rw [List.dropLast_append_getLast hb]
        _ = b.dropLast.drop (b.length - (k + 1)) ++ [b.getLast hb] :=
            List.drop_append_of_le_length h2
    have ih := redoN_spec k (a ++ [b.getLast hb]) b.dropLast hk
    calc redoN (⟨⟨a⟩, ⟨b⟩⟩ : UndoRedoStack α) (k + 1)
        = redoN ⟨⟨a ++ [b.getLast hb]⟩, ⟨b.dropLast⟩⟩ k := by
          show redoN (redo ⟨⟨a⟩, ⟨b⟩⟩).2 k = _
          rw [redo_of_ne_nil a b hb]
      _ = _ := by
          rw [ih, hidx, e1, key, List.reverse_append]
          simp [List.append_assoc]

/-- One undo never shrinks a non-empty undo stack to empty. -/
theorem undo_preserves_floor {α : Type} (a b : List α) (h : 1 ≤ a.length) :
    1 ≤ ((undo ⟨⟨a⟩, ⟨b⟩⟩).2).undoStack.length := by
  by_cases h1 : 1 < a.length
  · have ha : a ≠ [] := by
      intro e
      subst e
      simp at h1
    rw [undo_of_one_lt a b ha h1]
    show 1 ≤ a.dropLast.length
    rw [List.length_dropLast]
    omega
  · rw [undo_of_le_one a b (by omega)]
    exact h

/-- Any run of undos preserves a non-empty undo stack. -/
theorem undoN_floor {α : Type} :
    ∀ (k : Nat) (s : UndoRedoStack α), 1 ≤ s.undoStack.length →
      1 ≤ (undoN s k).undoStack.length
  | 0, _, h => h
  | k + 1, s, h => by
    obtain ⟨⟨a⟩, ⟨b⟩⟩ := s
    exact undoN_floor k _ (undo_preserves_floor a b h)

/-- C1: starting from an empty UndoRedoStack, for any sequence of push calls
of length at least 1 followed by any number of undo() calls, latest() never
returns the none sentinel and the undo stack's length never drops below 1. -/
theorem floor_invariant {α : Type} (l : List α) (k : Nat) (h : l ≠ []) :
    (undoN (pushAll new l) k).latest ≠ none ∧
      1 ≤ (undoN (pushAll new l) k).undoStack.length := by
  have hs0 : pushAll (new : UndoRedoStack α) l = ⟨⟨l⟩, ⟨[]⟩⟩ := by
    simpa using pushAll_eq l [] [] h
  have h1 : 1 ≤ (pushAll (new : UndoRedoStack α) l).undoStack.length := by
    rw [hs0]
    show 1 ≤ l.length
    have := List.length_pos.mpr h
    omega
  have h2 := undoN_floor k (pushAll new l) h1
  refine ⟨?_, h2⟩
  have h3 : (undoN (pushAll new l) k).undoStack.state ≠ [] := by
    intro e
    have : (undoN (pushAll new l) k).undoStack.length = 0 := by
      show (undoN (pushAll new l) k).undoStack.state.length = 0
      rw [e]
      rfl
    omega
  simpa [latest, ActionStack.current, List.getLast?_eq_none_iff] using h3

/-- Witness: pushing two snapshots then undoing five times keeps latest()
defined and the undo-stack length at least 1. -/
theorem floor_invariant_witness :
    (["A", "B"] : List String) ≠ [] ∧
      ((undoN (pushAll new ["A", "B"]) 5).latest ≠ none ∧
        1 ≤ (undoN (pushAll new ["A", "B"]) 5).undoStack.length) :=
  ⟨by decide, floor_invariant ["A", "B"] 5 (by decide)⟩

/-- C2: for a snapshot sequence of length at least 2 pushed in order onto a
fresh stack, undo() then redo() leaves latest() equal to the last pushed
snapshot, and undoing (n-1) times then redoing (n-1) times also returns
latest() to the last pushed snapshot. -/
theorem undo_redo_inverse {α : Type} (l : List α) (h : 2 ≤ l.length) :
    ((((pushAll new l).undo).2.redo).2).latest = l.getLast? ∧
      (redoN (undoN (pushAll new l) (l.length - 1)) (l.length - 1)).latest =
        l.getLast? := by
  have hl : l ≠ [] := by
    intro e
    subst e
    simp at h
  have hs0 : pushAll (new : UndoRedoStack α) l = ⟨⟨l⟩, ⟨[]⟩⟩ := by
    simpa using pushAll_eq l [] [] hl
  constructor
  · rw [hs0, undo_of_one_lt l [] hl (by omega)]
    show (redo ⟨⟨l.dropLast⟩, ⟨[] ++ [l.getLast hl]⟩⟩).2.latest = l.getLast?
    rw [show ([] ++ [l.getLast hl] : List α) = [l.getLast hl] from by simp,
      redo_of_ne_nil l.dropLast [l.getLast hl] (by simp)]
    show (⟨⟨l.dropLast ++ [([l.getLast hl] : List α).getLast (by simp)]⟩, ⟨([l.getLast hl] : List α).dropLast⟩⟩ :
      UndoRedoStack α).latest = l.getLast?
    simp [latest, ActionStack.current, List.getLast?_concat,
      List.getLast?_eq_getLast_of_ne_nil hl]
  · rw [hs0, undoN_spec (l.length - 1) l [] (by omega)]
    have e1 : l.length - (l.length - 1) = 1 := by omega
    rw [e1, show ([] ++ (l.drop 1).reverse : List α) = (l.drop 1).reverse from by simp,
      redoN_spec (l.length - 1) (l.take 1) ((l.drop 1).reverse)
        (by simp)]
    have e2 : (l.drop 1).reverse.length - (l.length - 1) = 0 := by
      simp
    rw [e2]
    have e3 : l.take 1 ++ ((l.drop 1).reverse.drop 0).reverse = l := by
      rw [List.drop_zero, List.reverse_reverse, List.take_append_drop]
    rw [e3]
    simp [latest, ActionStack.current]

/-- Witness: the inverse law at the concrete sequence "A", "B", "C". -/
theorem undo_redo_inverse_witness :
    2 ≤ (["A", "B", "C"] : List String).length ∧
      (((((pushAll new ["A", "B", "C"]).undo).2.redo).2).latest =
          (["A", "B", "C"] : List String).getLast? ∧
        (redoN (undoN (pushAll new ["A", "B", "C"])
              ((["A", "B", "C"] : List String).length - 1))
            ((["A", "B", "C"] : List String).length - 1)).latest =
          (["A", "B", "C"] : List String).getLast?) :=
  ⟨by decide, undo_redo_inverse ["A", "B", "C"] (by decide)⟩

/-- C3: after push(a); push(b); undo(); push(c) on a fresh stack, redo() is a
no-op: it returns the no-op sentinel and leaves the state unchanged, because
push unconditionally clears the redo stack. -/
theorem redo_noop_after_push (α : Type) (a b c : α) :
    ((((new.push a).push b).undo.2).push c).redo =
      (none, (((new.push a).push b).undo.2).push c) := rfl

/-- C4: pushing "A", "B", "C" onto a fresh stack, undo() returns "B", a second
undo() returns "A", a third undo() returns the no-op sentinel, then redo()
returns "B", and after push("D") a further redo() returns the no-op
sentinel. -/
theorem scenario_abc_undo_redo :
    (pushAll new ["A", "B", "C"]).undo.1 = some "B" ∧
    ((pushAll new ["A", "B", "C"]).undo.2).undo.1 = some "A" ∧
    (((pushAll new ["A", "B", "C"]).undo.2).undo.2).undo.1 = none ∧
    ((((pushAll new ["A", "B", "C"]).undo.2).undo.2).undo.2).redo.1 = some "B" ∧
    (((((pushAll new ["A", "B", "C"]).undo.2).undo.2).undo.2).redo.2.push "D").redo.1
      = none := by
  refine ⟨rfl, rfl, rfl, rfl, rfl⟩

/-- C6: scanning an all-transparent 10x10 buffer yields exactly y1 = 9
(defaulted to height - 1), y2 = 10 (defaulted to y1 + 1) and x1 = 10
(unchanged from its seed, the width). -/
theorem scan_all_transparent_10x10 :
    (scanPixels ⟨10, 10, List.replicate 100 0⟩).y1 = 9 ∧
      (scanPixels ⟨10, 10, List.replicate 100 0⟩).y2 = 10 ∧
      (scanPixels ⟨10, 10, List.replicate 100 0⟩).x1 = 10 := by
  decide

/-- C7: scanning a 4x4 buffer in which every pixel has non-zero alpha yields
exactly x1 = 0, y1 = 0, x2 = 3, y2 = 3, width = 3 and height = 3. -/
theorem scan_fully_opaque_4x4 :
    scanPixels ⟨4, 4, List.replicate 16 0xff000000⟩ =
      { x1 := 0, x2 := 3, y1 := 0, y2 := 3, width := 3, height := 3 } := by
  decide

/-- C10: there is a pixel buffer containing an opaque pixel for which the
scan returns x2 < x1 and hence a negative width: in a 2x1 buffer whose only
opaque pixel sits at column 1, x1 is set to 1 but the x2 sweep only inspects
columns strictly greater than x1, so x2 stays at its seed 0 and the width is
0 - 1 = -1. -/
theorem scan_negative_width_exists :
    ∃ P : PixelBuffer, (∃ y x, pixelIsOpaque P y x) ∧
      (scanPixels P).x2 < (scanPixels P).x1 ∧ (scanPixels P).width < 0 :=
  ⟨⟨2, 1, [0, 0xff000000]⟩, ⟨0, 1, by decide⟩, by decide, by decide⟩

/-- C5 fails on the code: in the 2x1 buffer whose only opaque pixel is at
row 0, column 1, the minimal rectangle over the opaque pixels has minimum and
maximum column 1 and maximum row 0, yet the scan returns x2 = 0 (not the
maximum opaque column), width = -1 and y2 = 1 (not the maximum opaque
row). -/
theorem scan_not_minimal_rectangle :
    (∀ y x, pixelIsOpaque (⟨2, 1, [0, 0xff000000]⟩ : PixelBuffer) y x →
        y = 0 ∧ x = 1) ∧
      (scanPixels ⟨2, 1, [0, 0xff000000]⟩).x2 = 0 ∧
      (scanPixels ⟨2, 1, [0, 0xff000000]⟩).x1 = 1 ∧
      (scanPixels ⟨2, 1, [0, 0xff000000]⟩).width = -1 ∧
      (scanPixels ⟨2, 1, [0, 0xff000000]⟩).y2 = 1 := by
  refine ⟨?_, by decide, by decide, by decide, by decide⟩
  intro y x h
  obtain ⟨hy, hx, ha⟩ := h
  have hy1 : y < 1 := hy
  have hx2 : x < 2 := hx
  have hy0 : y = 0 := by omega
  subst hy0
  refine ⟨rfl, ?_⟩
  interval_cases x
  · exact absurd ha (by decide)
  · rfl

/-- C8: for position left the new left coordinate equals
currentLeft - boundLeft - realX1 (with nominal left 50, opaque x1 offset 5
and current left 50 this is -5), and for position center-h it equals that
value plus canvasWidth / 2 - realWidth / 2 (with surface width 800 and
opaque width 100 this is -5 + 400 - 50 = 345). -/
theorem align_horizontal_left_center :
    (∀ cl bl rx rb cw : Rat,
        alignObjectLeft "left" cl bl rx rb cw = some (cl - bl - rx) ∧
        alignObjectLeft "center-h" cl bl rx rb cw =
          some ((cl - bl - rx) + (cw / 2 - rb / 2))) ∧
      alignObjectLeft "left" 50 50 5 100 800 = some (-5) ∧
      alignObjectLeft "center-h" 50 50 5 100 800 = some 345 := by
  refine ⟨fun cl bl rx rb cw => ⟨rfl, ?_⟩, ?_, ?_⟩
  · show some (cl - bl - rx + cw / 2 - rb / 2) = _
    congr 1
    ring
  · show some ((50 : Rat) - 50 - 5) = some (-5)
    norm_num
  · show some ((50 : Rat) - 50 - 5 + 800 / 2 - 100 / 2) = some 345
    norm_num

/-- Writing through a reference leaves every other reference's contents
unchanged. -/
theorem store_read_write_ne {α : Type} (st : Store α) (q r : Nat)
    (v : List α) (hne : q ≠ r) : (st.write q v).read r = st.read r := by
  simp [Store.read, Store.write, List.getD_eq_getElem?_getD,
    List.getElem?_set_ne hne]

/-- Writing through a valid reference replaces that reference's contents. -/
theorem store_read_write_same {α : Type} (st : Store α) (r : Nat)
    (v : List α) (h : r < st.arrays.length) : (st.write r v).read r = v := by
  simp [Store.read, Store.write, List.getD_eq_getElem?_getD,
    List.getElem?_set_self h]

/-- C9: the array returned by getValues is an independent copy of the
internal sequence: it holds the same contents, and overwriting it with any
list changes neither the stack's array nor the results of subsequent
current() and pop() calls on the stack. -/
theorem getValues_copy_isolation {α : Type} (st : Store α) (r : Nat)
    (v : List α) (h : r < st.arrays.length) :
    (st.getValues r).1.read (st.getValues r).2 = st.read r ∧
      ((st.getValues r).1.write (st.getValues r).2 v).read r = st.read r ∧
      ((st.getValues r).1.write (st.getValues r).2 v).current r =
        st.current r ∧
      (((st.getValues r).1.write (st.getValues r).2 v).pop r).1 =
        (st.pop r).1 ∧
      ((((st.getValues r).1.write (st.getValues r).2 v).pop r).2).read r =
        ((st.pop r).2).read r := by
  have hne : st.arrays.length ≠ r := by omega
  have hcopy : (st.getValues r).1.read (st.getValues r).2 = st.read r := by
    simp [Store.getValues, Store.read, List.getD_append_right]
  have hread : ((st.getValues r).1.write (st.getValues r).2 v).read r =
      st.read r := by
    rw [show (st.getValues r).2 = st.arrays.length from rfl,
      store_read_write_ne _ _ _ _ hne]
    simp [Store.getValues, Store.read, List.getD_eq_getElem?_getD,
      List.getElem?_append, h]
  refine ⟨hcopy, hread, ?_, ?_, ?_⟩
  · simp [Store.current, hread]
  · simp [Store.pop, hread]
  · show (((st.getValues r).1.write (st.getValues r).2 v).write r
        (((st.getValues r).1.write (st.getValues r).2 v).read r).dropLast).read r =
      (st.write r (st.read r).dropLast).read r
    rw [store_read_write_same _ _ _
        (by simp [Store.getValues, Store.write]; omega),
      store_read_write_same _ _ _ h, hread]

/-- Witness: copy isolation on the one-stack store holding [1, 2], mutating
the returned copy to [9]. -/
theorem getValues_copy_isolation_witness :
    (0 < (Store.mk [[1, 2]] : Store Nat).arrays.length) ∧
      (((Store.mk [[1, 2]] : Store Nat).getValues 0).1.read
          ((Store.mk [[1, 2]] : Store Nat).getValues 0).2 =
        (Store.mk [[1, 2]] : Store Nat).read 0 ∧
      (((Store.mk [[1, 2]] : Store Nat).getValues 0).1.write
          ((Store.mk [[1, 2]] : Store Nat).getValues 0).2 [9]).read 0 =
        (Store.mk [[1, 2]] : Store Nat).read 0 ∧
      (((Store.mk [[1, 2]] : Store Nat).getValues 0).1.write
          ((Store.mk [[1, 2]] : Store Nat).getValues 0).2 [9]).current 0 =
        (Store.mk [[1, 2]] : Store Nat).current 0 ∧
      ((((Store.mk [[1, 2]] : Store Nat).getValues 0).1.write
            ((Store.mk [[1, 2]] : Store Nat).getValues 0).2 [9]).pop 0).1 =
        ((Store.mk [[1, 2]] : Store Nat).pop 0).1 ∧
      (((((Store.mk [[1, 2]] : Store Nat).getValues 0).1.write
              ((Store.mk [[1, 2]] : Store Nat).getValues 0).2 [9]).pop 0).2).read 0 =
        (((Store.mk [[1, 2]] : Store Nat).pop 0).2).read 0) :=
  ⟨by decide, getValues_copy_isolation ⟨[[1, 2]]⟩ 0 [9] (by decide)⟩

end LabelEditor
